import Mathlib

/-!
Verification of the `baseclasses` library (`src/baseclasses/core.py`): a
dataclass-like framework that synthesizes constructors, comparison, hashing
and representation from annotated fields, with inheritance-aware field
merging and per-class mutability.

The embedding below translates the relevant parts of `core.py`:

* `FieldInfo` / `InternalStateField`          (core.py lines 48-120)
* `BaseMetaClass.__new__`                 (core.py lines 128-211), as `metaclass_new`
* `BaseClass.__init__`                    (core.py lines 215-268), as `baseclass_init`
* `BaseClass.__setattr__`                 (core.py lines 276-281), as `baseclass_setattr`
* `BaseClass.__hash__`, `_as_hash_tuple`, `_as_compare_tuple`, `__eq__`,
  `as_tuple`, `as_dict`                   (core.py lines 283-396)

Python dictionaries are modelled as association lists with dict update
semantics (an existing key is replaced in place, a new key is appended).
Python object identity of `FieldInfo` instances is modelled by a numeric
identity tag `fid`: every `FieldInfo(...)` call produces a fresh tag and the
synthesizer threads a counter for the tags of the fields it creates, so two
schema entries carry the same `fid` exactly when they are the same Python
object.  Runtime values are modelled by the small inductive `Val`; user
hooks (`__pre_init__`, `__post_init__`) are modelled as pure functions on
the keyword map / the instance dict.
-/

/-- Runtime values held in fields and keyword maps. -/
inductive Val where
  | vnone
  | vint (n : Int)
  | vstr (s : String)
deriving DecidableEq, Repr

/-- Declared types (annotations) are carried as opaque names; the library
never validates them at runtime. -/
abbrev Ty := String

/-- Association list with string keys, modelling a Python dict. -/
abbrev Dict (α : Type) := List (String × α)

/-- Dict lookup: the first entry with the given key. -/
def afind {α : Type} (m : Dict α) (k : String) : Option α :=
  match m with
  | [] => none
  | (k', v) :: t => if k' = k then some v else afind t k

/-- Dict write `m[k] = v`: replace the entry in place if the key exists,
otherwise append a new entry at the end (Python dict insertion order). -/
def aupd {α : Type} (m : Dict α) (k : String) (v : α) : Dict α :=
  match m with
  | [] => [(k, v)]
  | (k', v') :: t => if k' = k then (k, v) :: t else (k', v') :: aupd t k v

/-- Dict update `m.update(n)`: write every entry of `n` into `m` in order. -/
def aupdAll {α : Type} (m n : Dict α) : Dict α :=
  n.foldl (fun acc p => aupd acc p.1 p.2) m

/-- The keys of a dict, in insertion order. -/
def akeys {α : Type} (m : Dict α) : List String :=
  m.map Prod.fst

/-- A default factory: a Python callable.  `isFunction` models
`inspect.isfunction`, `isLambda` models `__name__ == "<lambda>"`, `varkw`
models `inspect.getfullargspec(...).varkw` being set.  `call0` is the result
of invoking it with no arguments, `callKw m` the result of invoking it with
keyword arguments `m`. -/
structure Factory where
  isFunction : Bool
  isLambda : Bool
  varkw : Bool
  call0 : Val
  callKw : Dict Val → Val

/-- FieldInfo descriptor (core.py lines 48-100).  `fid` is the identity tag of
the underlying Python object; `name` and `type` start out unset and are
back-filled by the synthesizer.  `default`/`default_factory` use `none` for
the `MISSING` sentinel; `hash` and `compare` are the tri-state flags
(`none` = Python `None` = unset). -/
structure FieldInfo where
  fid : Nat
  name : Option String
  type : Option Ty
  default : Option Val
  default_factory : Option Factory
  repr : Bool
  str : Bool
  hash : Option Bool
  compare : Option Bool
  metadata : Dict Val

/-- Record builder shared by the `FieldInfo` constructors below. -/
def FieldInfo.make (fid : Nat) (default : Option Val) (default_factory : Option Factory)
    (rep st : Bool) (h c : Option Bool) (md : Dict Val) : FieldInfo :=
  { fid := fid, name := none, type := none, default := default,
    default_factory := default_factory, repr := rep, str := st,
    hash := h, compare := c, metadata := md }

/-- `FieldInfo.__init__` (core.py lines 61-85): rejects setting both `default`
and `default_factory`; flag defaults are `repr=True, str=True, hash=None,
compare=None`; `metadata=None` becomes the empty mapping. -/
def FieldInfo.init (fid : Nat) (default : Option Val) (default_factory : Option Factory)
    (rep st : Bool) (h c : Option Bool) (md : Option (Dict Val)) : Except String FieldInfo :=
  if default.isSome && default_factory.isSome then
    Except.error "Cannot set both default and default_factory"
  else
    Except.ok (FieldInfo.make fid default default_factory rep st h c (md.getD []))

/-- `InternalStateField.__init__` (core.py lines 103-120): a `FieldInfo` with
repr/str/hash/compare all forced off. -/
def InternalStateField.init (fid : Nat) (default : Option Val)
    (default_factory : Option Factory) (md : Option (Dict Val)) : Except String FieldInfo :=
  FieldInfo.init fid default default_factory false false (some false) (some false) md

/-- The field's back-filled name (always set on schema entries). -/
def FieldInfo.pname (f : FieldInfo) : String :=
  f.name.getD ""

/-- A value stored in a class namespace / defaults map: either a plain
default value or a `FieldInfo` descriptor object. -/
inductive NsVal where
  | plain (v : Val)
  | fieldObj (f : FieldInfo)

/-- The locally declared part of a class body: its `__annotations__` and the
namespace members that share a name with an annotation. -/
structure Namespace where
  annotations : Dict Ty
  values : Dict NsVal

/-- The class-level metadata installed by `BaseMetaClass.__new__`:
`__all_annotations__`, `__all_defaults__`, `__frozen__`, `__fields__`, plus
the data the constructor reads off `__bases__`. -/
structure ClassInfo where
  name : String
  hasUserBase : Bool
  all_annotations : Dict Ty
  all_defaults : Dict NsVal
  frozen : Bool
  fields : List FieldInfo

/-- A direct base class: the framework bases `BaseClass` /
`FrozenBaseClass`, an already-synthesized class, or a plain (non-framework)
class with raw annotations and attributes. -/
inductive Base where
  | baseClass
  | frozenBaseClass
  | synthesized (c : ClassInfo)
  | plain (anns : Dict Ty) (attrs : Dict NsVal)

/-- `getattr(base, "__all_annotations__", ...)` fallback chain of
core.py lines 145-148.  `BaseClass` is short-circuited by the metaclass and
carries no annotations; `FrozenBaseClass` is synthesized with an empty
field set. -/
def Base.anns : Base → Dict Ty
  | .baseClass => []
  | .frozenBaseClass => []
  | .synthesized c => c.all_annotations
  | .plain anns _ => anns

/-- Defaults of a plain base (core.py lines 153-156): for each annotated
name, the base's attribute of that name if present. -/
def plainDefaults (anns : Dict Ty) (attrs : Dict NsVal) : Dict NsVal :=
  anns.foldl (fun acc p =>
    match afind attrs p.1 with
    | some v => aupd acc p.1 v
    | none => acc) []

/-- `__all_defaults__` contribution of one base (core.py lines 150-156). -/
def Base.defaults : Base → Dict NsVal
  | .baseClass => []
  | .frozenBaseClass => []
  | .synthesized c => c.all_defaults
  | .plain anns attrs => plainDefaults anns attrs

/-- `getattr(base, "__frozen__", ...)` (core.py line 160): `some` when the
base defines `__frozen__`. -/
def Base.frozenAttr : Base → Option Bool
  | .baseClass => none
  | .frozenBaseClass => some true
  | .synthesized c => some c.frozen
  | .plain _ _ => none

/-- Whether a base is one of the two framework classes, for the
`set(bases) - {BaseClass, FrozenBaseClass}` test of core.py line 217. -/
def Base.isFramework : Base → Bool
  | .baseClass => true
  | .frozenBaseClass => true
  | .synthesized _ => false
  | .plain _ _ => false

/-- The namespace-overlay loop of core.py lines 163-167: for each annotated
name that is also a namespace member, write the namespace value into the
defaults map. -/
def overlayDefaults (anns : Dict Ty) (nsv : Dict NsVal) (defaults : Dict NsVal) :
    Dict NsVal :=
  anns.foldl (fun acc p =>
    match afind nsv p.1 with
    | some v => aupd acc p.1 v
    | none => acc) defaults

/-- The field-construction loop of core.py lines 172-187: one `FieldInfo` per
annotation, reusing a `FieldInfo` default object as-is, wrapping a plain
default in a fresh default-only `FieldInfo`, and making a fresh required
`FieldInfo` otherwise; then back-fill `name` and `type`.  `ctr` is the fresh
identity-tag counter for the `FieldInfo(...)` calls performed here. -/
def buildFields : Dict Ty → Dict NsVal → Nat → List FieldInfo × Nat
  | [], _, ctr => ([], ctr)
  | (n, ty) :: rest, defaults, ctr =>
    match afind defaults n with
    | some (NsVal.fieldObj g) =>
      let res := buildFields rest defaults ctr
      ({ g with name := some n, type := some ty } :: res.1, res.2)
    | some (NsVal.plain v) =>
      let res := buildFields rest defaults (ctr + 1)
      ({ FieldInfo.make ctr (some v) none true true none none [] with
          name := some n, type := some ty } :: res.1, res.2)
    | none =>
      let res := buildFields rest defaults (ctr + 1)
      ({ FieldInfo.make ctr none none true true none none [] with
          name := some n, type := some ty } :: res.1, res.2)

/-- `BaseMetaClass.__new__` (core.py lines 128-211) for a non-short-circuited
class: merge annotations, defaults and the frozen flag across the bases in
declaration order, overlay the local declarations, build the field list, and
resolve `__frozen__` (the `frozen` class keyword wins when given). -/
def metaclass_new (name : String) (bases : List Base) (ns : Namespace)
    (kwFrozen : Option Bool) (ctr : Nat) : ClassInfo × Nat :=
  let merged := bases.foldl
    (fun (acc : Dict Ty × Dict NsVal × Bool) b =>
      (aupdAll acc.1 b.anns, aupdAll acc.2.1 b.defaults, (b.frozenAttr).getD acc.2.2))
    ([], [], false)
  let allAnns := aupdAll merged.1 ns.annotations
  let allDefs := overlayDefaults allAnns ns.values merged.2.1
  let built := buildFields allAnns allDefs ctr
  ({ name := name,
     hasUserBase := bases.any (fun b => !b.isFramework),
     all_annotations := allAnns,
     all_defaults := allDefs,
     frozen := kwFrozen.getD merged.2.2,
     fields := built.1 }, built.2)

/-- Construction-time errors of `BaseClass.__init__` and the frozen-field
error of `__setattr__`, as structured values (the source raises `TypeError`
resp. `FrozenInstanceError` with corresponding messages). -/
inductive PyError where
  | posArgsWithInheritance (clsName : String)
  | posAndKwConflict (fieldName clsName : String)
  | missingRequired (clsName fieldName : String)
  | unexpectedKwargs (clsName : String) (keys : List String)
  | frozenInstanceError (key : String)
deriving DecidableEq, Repr

/-- The positional-argument loop of core.py lines 223-234: pair positional
arguments with fields by `zip` (surplus arguments are dropped by `zip`),
rejecting a field supplied both positionally and by keyword. -/
def buildPosKwargs (clsName : String) (kwargs : Dict Val) :
    List (Val × FieldInfo) → Dict Val → Except PyError (Dict Val)
  | [], acc => Except.ok acc
  | (a, f) :: rest, acc =>
    if (afind kwargs f.pname).isSome then
      Except.error (PyError.posAndKwConflict f.pname clsName)
    else
      buildPosKwargs clsName kwargs rest (aupd acc f.pname a)

/-- The `if args:` block of core.py lines 216-237: positional arguments are
rejected outright when some direct base is not a framework class; otherwise
they are turned into keyword arguments and the explicit keywords are merged
on top (`kwargs_from_args.update(kwargs)`). -/
def mergeArgs (cls : ClassInfo) (args : List Val) (kwargs : Dict Val) :
    Except PyError (Dict Val) :=
  if args.isEmpty then Except.ok kwargs
  else if cls.hasUserBase then Except.error (PyError.posArgsWithInheritance cls.name)
  else
    match buildPosKwargs cls.name kwargs (args.zip cls.fields) [] with
    | Except.error e => Except.error e
    | Except.ok kfa => Except.ok (aupdAll kfa kwargs)

/-- One iteration of the field-resolution loop of core.py lines 241-259:
keyword value if present; else the default factory (invoked with the full
keyword map only when it is a lambda function with a `**kwargs` catch-all,
with no arguments otherwise); else the plain default; else the
missing-required-argument error. -/
def resolveField (clsName : String) (kwargs : Dict Val) (f : FieldInfo) :
    Except PyError Val :=
  match afind kwargs f.pname with
  | some v => Except.ok v
  | none =>
    match f.default_factory with
    | some fa =>
      Except.ok (if fa.isFunction && fa.isLambda && fa.varkw then fa.callKw kwargs
                 else fa.call0)
    | none =>
      match f.default with
      | some v => Except.ok v
      | none => Except.error (PyError.missingRequired clsName f.pname)

/-- The field-resolution loop over the whole schema, writing resolved values
into `self.__dict__` (the accumulator) in schema order. -/
def initFields (clsName : String) (kwargs : Dict Val) :
    List FieldInfo → Dict Val → Except PyError (Dict Val)
  | [], dict => Except.ok dict
  | f :: rest, dict =>
    match resolveField clsName kwargs f with
    | Except.error e => Except.error e
    | Except.ok v => initFields clsName kwargs rest (aupd dict f.pname v)

/-- The part of `BaseClass.__init__` after positional-argument handling
(core.py lines 239-268): run `__pre_init__` on the keyword map, resolve
every field into `self.__dict__` in schema order, fail on keyword entries
naming no field (`set(kwargs) - set(self.__dict__)`, reported all at once),
then run `__post_init__`. -/
def initPhase (cls : ClassInfo) (kw1 : Dict Val) (pre post : Dict Val → Dict Val) :
    Except PyError (Dict Val) :=
  match initFields cls.name (pre kw1) cls.fields [] with
  | Except.error e => Except.error e
  | Except.ok dict =>
    let unexpected := (akeys (pre kw1)).filter (fun k => (afind dict k).isNone)
    if unexpected.isEmpty then Except.ok (post dict)
    else Except.error (PyError.unexpectedKwargs cls.name unexpected)

/-- `BaseClass.__init__` (core.py lines 215-268).  `pre` models
`__pre_init__` rewriting the keyword map, `post` models `__post_init__`
acting on the fully built instance dict; both default to no-ops in the
source.  The result is the instance `__dict__`. -/
def baseclass_init (cls : ClassInfo) (args : List Val) (kwargs : Dict Val)
    (pre post : Dict Val → Dict Val) : Except PyError (Dict Val) :=
  match mergeArgs cls args kwargs with
  | Except.error e => Except.error e
  | Except.ok kw1 => initPhase cls kw1 pre post

/-- `BaseClass.__setattr__` (core.py lines 276-281): any assignment on a
frozen class raises; otherwise the attribute is written in place. -/
def baseclass_setattr (cls : ClassInfo) (d : Dict Val) (k : String) (v : Val) :
    Except PyError (Dict Val) :=
  if cls.frozen then Except.error (PyError.frozenInstanceError k)
  else Except.ok (aupd d k v)

/-- `BaseClass._as_hash_tuple` (core.py lines 372-377): values of the fields
whose `hash` flag is `None` or truthy, in schema order. -/
def as_hash_tuple (cls : ClassInfo) (d : Dict Val) : List Val :=
  (cls.fields.filter (fun f => f.hash.getD true)).map
    (fun f => (afind d f.pname).getD Val.vnone)

/-- `BaseClass._as_compare_tuple` (core.py lines 379-384): values of the
fields whose `compare` flag is `None` or truthy, in schema order. -/
def as_compare_tuple (cls : ClassInfo) (d : Dict Val) : List Val :=
  (cls.fields.filter (fun f => f.compare.getD true)).map
    (fun f => (afind d f.pname).getD Val.vnone)

/-- `BaseClass.__hash__` (core.py lines 283-287): `NotImplemented` (`none`)
on a mutable class; the hash input tuple on a frozen class. -/
def baseclass_hash (cls : ClassInfo) (d : Dict Val) : Option (List Val) :=
  if cls.frozen then some (as_hash_tuple cls d) else none

/-- `BaseClass.__eq__` via `_compare` (core.py lines 289-297) on two
instances of the same exact class: equality of the compare tuples. -/
def instEq (cls : ClassInfo) (d1 d2 : Dict Val) : Bool :=
  decide (as_compare_tuple cls d1 = as_compare_tuple cls d2)

/-- `BaseClass.as_tuple` (core.py lines 386-390). -/
def as_tuple (cls : ClassInfo) (d : Dict Val) : List Val :=
  cls.fields.map (fun f => (afind d f.pname).getD Val.vnone)

/-- `BaseClass.as_dict` (core.py lines 392-396): field name to value, in
schema order. -/
def as_dict (cls : ClassInfo) (d : Dict Val) : Dict Val :=
  cls.fields.map (fun f => (f.pname, (afind d f.pname).getD Val.vnone))

/-- Whether an `Except` value is a success. -/
def exceptOk {ε α : Type} : Except ε α → Bool
  | Except.ok _ => true
  | Except.error _ => false

/-- The keyword map a positional-argument list is turned into when no
conflict occurs: fields filled in strict schema order. -/
def posKwargs (cls : ClassInfo) (args : List Val) : Dict Val :=
  (args.zip cls.fields).foldl (fun a p => aupd a p.2.pname p.1) []

/-- Replace an unset `hash` flag by an explicit `true` (the resolution the
code actually applies), leaving set flags alone. -/
def forceUnsetHashTrue (f : FieldInfo) : FieldInfo :=
  { f with hash := some (f.hash.getD true) }

/-- Rewrite a field's `compare` flag with an arbitrary assignment. -/
def setCompare (cf : FieldInfo → Option Bool) (f : FieldInfo) : FieldInfo :=
  { f with compare := cf f }

/-- The `__frozen__` value of the last base (in declaration order) that
defines one, if any. -/
def lastDefinedFrozen : List Base → Option Bool
  | [] => none
  | b :: t =>
    match lastDefinedFrozen t with
    | some v => some v
    | none => b.frozenAttr

/-- The immutability-resolution rule as the spec words it, amended in one
place: the resolved flag comes from the LAST base (in declaration order)
that defines `__frozen__` (the spec said "first"), defaults to mutable, and
a local `frozen` class keyword always wins. -/
def resolvedFrozen (bases : List Base) (kwFrozen : Option Bool) : Bool :=
  kwFrozen.getD ((lastDefinedFrozen bases).getD false)

/-! ### Concrete classes used by individual claims -/

/-- A field declared as `Field(compare=False)`: `hash` unset, `compare`
explicitly false (identity tag 100). -/
def c1field : FieldInfo := FieldInfo.make 100 none none true true none (some false) []

/-- Class body `x: int = Field(compare=False)`. -/
def c1ns : Namespace :=
  { annotations := [("x", "int")], values := [("x", NsVal.fieldObj c1field)] }

/-- `class C1Cls(FrozenBaseClass-like)` holding just the field `x`. -/
def c1cls : ClassInfo := (metaclass_new "C1Cls" [Base.baseClass] c1ns (some true) 0).1

/-- Class body of the test-suite's `Parent`: `x: int`, `y: int`,
`z: Optional[str] = "parent"`. -/
def c2parentNs : Namespace :=
  { annotations := [("x", "int"), ("y", "int"), ("z", "Optional[str]")],
    values := [("z", NsVal.plain (Val.vstr "parent"))] }

/-- `class Parent(BaseClass)` of the test suite. -/
def c2parent : ClassInfo := (metaclass_new "Parent" [Base.baseClass] c2parentNs none 0).1

/-- Class body of the test-suite's `Middle`: redeclares `y` and `z` with
new defaults. -/
def c2middleNs : Namespace :=
  { annotations := [("y", "int"), ("z", "Optional[str]")],
    values := [("y", NsVal.plain (Val.vint 1)), ("z", NsVal.plain (Val.vstr "middle"))] }

/-- `class Middle(Parent)`: a single-chain subclass of one synthesized
base. -/
def c2middle : ClassInfo :=
  (metaclass_new "Middle" [Base.synthesized c2parent] c2middleNs none
    (metaclass_new "Parent" [Base.baseClass] c2parentNs none 0).2).1

/-- Class body of the test-suite's `PosArgs`: `x: int`, `y: int = 1`,
`z: int`, directly on the framework base. -/
def c2posNs : Namespace :=
  { annotations := [("x", "int"), ("y", "int"), ("z", "int")],
    values := [("y", NsVal.plain (Val.vint 1))] }

/-- `class PosArgs(FrozenBaseClass)` of the test suite. -/
def c2pos : ClassInfo := (metaclass_new "PosArgs" [Base.frozenBaseClass] c2posNs none 10).1

/-- `class A(BaseClass, frozen=True)`: an immutable empty class. -/
def c3A : ClassInfo :=
  (metaclass_new "A" [Base.baseClass] { annotations := [], values := [] } (some true) 0).1

/-- `class B(BaseClass)`: a mutable empty class. -/
def c3B : ClassInfo :=
  (metaclass_new "B" [Base.baseClass] { annotations := [], values := [] } none 0).1

/-- `class C(A, B)`: multiple bases with differing `__frozen__`, no local
keyword. -/
def c3C : ClassInfo :=
  (metaclass_new "C" [Base.synthesized c3A, Base.synthesized c3B]
    { annotations := [], values := [] } none 0).1

/-- A default factory that is a plain named function (not a lambda) with a
`**kwargs` catch-all: it returns the raw `base` argument. -/
def c4factory : Factory :=
  { isFunction := true, isLambda := false, varkw := true,
    call0 := Val.vint 0, callKw := fun kw => (afind kw "base").getD Val.vnone }

/-- Class body `base: int; total: int = Field(default_factory=c4factory)`. -/
def c4ns : Namespace :=
  { annotations := [("base", "int"), ("total", "int")],
    values := [("total", NsVal.fieldObj
      (FieldInfo.make 200 none (some c4factory) true true none none []))] }

/-- `class C4Cls(BaseClass)` with the named-function factory. -/
def c4cls : ClassInfo := (metaclass_new "C4Cls" [Base.baseClass] c4ns none 0).1

/-- A default factory that IS a lambda with a `**kwargs` catch-all, like
`lambda **kwargs: kwargs["window"]` of the test suite. -/
def c4wfactory : Factory :=
  { isFunction := true, isLambda := true, varkw := true,
    call0 := Val.vnone, callKw := fun kw => (afind kw "window").getD Val.vnone }

/-- Class body of the test-suite's `BCKwargs`: `window: int`,
`com: int = Field(default_factory=lambda **kwargs: kwargs["window"])`. -/
def c4wns : Namespace :=
  { annotations := [("window", "int"), ("com", "int")],
    values := [("com", NsVal.fieldObj
      (FieldInfo.make 300 none (some c4wfactory) true true none none []))] }

/-- `class BCKwargs(FrozenBaseClass)` of the test suite. -/
def c4wcls : ClassInfo := (metaclass_new "BCKwargs" [Base.frozenBaseClass] c4wns none 0).1

/-- The synthesized schema entry for `window` in `c4wcls`. -/
def c4wWindowField : FieldInfo :=
  { FieldInfo.make 0 none none true true none none [] with
      name := some "window", type := some "int" }

/-- The synthesized schema entry for `com` in `c4wcls` (the reused
descriptor carrying the lambda factory). -/
def c4wComField : FieldInfo :=
  { FieldInfo.make 300 none (some c4wfactory) true true none none [] with
      name := some "com", type := some "int" }

/-- The `Field` object (identity tag 42) declared in `c5base`'s body. -/
def c5field : FieldInfo := FieldInfo.make 42 (some (Val.vint 1)) none true true none none []

/-- Class body `x: int = Field(default=1)`. -/
def c5baseNs : Namespace :=
  { annotations := [("x", "int")], values := [("x", NsVal.fieldObj c5field)] }

/-- `class B(BaseClass)` declaring `x` with an explicit `Field` object. -/
def c5base : ClassInfo := (metaclass_new "B5" [Base.baseClass] c5baseNs none 0).1

/-- `class C(B)` inheriting `x` unchanged. -/
def c5child : ClassInfo :=
  (metaclass_new "C5" [Base.synthesized c5base] { annotations := [], values := [] } none 1).1

/-- Class body `y: int = 7`: a subclass of `c5base` adding a plain-default
field. -/
def c5childNs : Namespace :=
  { annotations := [("y", "int")], values := [("y", NsVal.plain (Val.vint 7))] }

/-- `class C5Sub(B)` inheriting `x` (explicit `Field` object) and declaring
`y` with a plain default. -/
def c5sub : ClassInfo :=
  (metaclass_new "C5Sub" [Base.synthesized c5base] c5childNs none 1).1

/-- Class body of a three-level-chain root: `x: int`, `y: int`,
`z: str = "parent"`. -/
def c6parentNs : Namespace :=
  { annotations := [("x", "int"), ("y", "int"), ("z", "str")],
    values := [("z", NsVal.plain (Val.vstr "parent"))] }

/-- Level-1 class of the C6 chain. -/
def c6parent : ClassInfo := (metaclass_new "P6" [Base.baseClass] c6parentNs none 0).1

/-- Level-2 class body: redeclares `y` with a new default and adds
`alpha`. -/
def c6middleNs : Namespace :=
  { annotations := [("y", "int"), ("alpha", "float")],
    values := [("y", NsVal.plain (Val.vint 1))] }

/-- Level-2 class of the C6 chain: redeclares `y`, inherits `x`/`z`, adds
`alpha`. -/
def c6middle : ClassInfo :=
  (metaclass_new "M6" [Base.synthesized c6parent] c6middleNs none
    (metaclass_new "P6" [Base.baseClass] c6parentNs none 0).2).1

/-- Class body with two required fields, used for the unexpected-keyword
check. -/
def c7ns : Namespace :=
  { annotations := [("x", "int"), ("y", "int")], values := [] }

/-- `class C7Cls(BaseClass)` with fields `x` and `y`. -/
def c7cls : ClassInfo := (metaclass_new "C7Cls" [Base.baseClass] c7ns none 0).1

/-- Class body `x: int; y: int = 2` on the frozen framework base. -/
def c9ns : Namespace :=
  { annotations := [("x", "int"), ("y", "int")],
    values := [("y", NsVal.plain (Val.vint 2))] }

/-- `class C9Cls(FrozenBaseClass)` used for the round-trip check. -/
def c9cls : ClassInfo := (metaclass_new "C9Cls" [Base.frozenBaseClass] c9ns none 0).1

/-- Class body with fields `x` and `y`, used for the surplus-positional
check. -/
def c10ns : Namespace :=
  { annotations := [("x", "int"), ("y", "int")], values := [] }

/-- `class C10Cls(BaseClass)` with fields `x` and `y`. -/
def c10cls : ClassInfo := (metaclass_new "C10Cls" [Base.baseClass] c10ns none 0).1

/-! ### Dictionary lemmas -/

theorem afind_aupd {α : Type} (m : Dict α) (k : String) (v : α) (k' : String) :
    afind (aupd m k v) k' = if k = k' then some v else afind m k' := by
  induction m with
  | nil =>
    simp [aupd, afind]
  | cons p t ih =>
    obtain ⟨a, b⟩ := p
    simp only [aupd]
    by_cases h : a = k
    · subst h
      simp only [if_pos rfl, afind, if_pos rfl]
      by_cases h2 : a = k' <;> simp [h2, afind]
    · simp only [if_neg h, afind]
      by_cases h2 : a = k'
      · subst h2
        have hk : ¬ k = a := fun hh => h hh.symm
        simp [hk]
      · simp [h2, ih]

theorem akeys_aupd {α : Type} (m : Dict α) (k : String) (v : α) :
    akeys (aupd m k v) = if (afind m k).isSome then akeys m else akeys m ++ [k] := by
  induction m with
  | nil => simp [aupd, afind, akeys]
  | cons p t ih =>
    obtain ⟨a, b⟩ := p
    simp only [aupd, afind]
    by_cases h : a = k
    · simp [h, akeys]
    · simp only [if_neg h, akeys, List.map_cons]
      by_cases h2 : (afind t k).isSome
      · simp only [if_pos h2] at ih ⊢
        simp [akeys] at ih
        simp [ih]
      · simp only [if_neg h2] at ih ⊢
        simp [akeys] at ih
        simp [ih]

theorem afind_eq_none_iff {α : Type} (m : Dict α) (k : String) :
    afind m k = none ↔ k ∉ akeys m := by
  induction m with
  | nil => simp [afind, akeys]
  | cons p t ih =>
    obtain ⟨a, b⟩ := p
    by_cases h : a = k
    · subst h
      simp [afind, akeys]
    · have hmem : k ∈ akeys ((a, b) :: t) ↔ (k = a ∨ k ∈ akeys t) := by
        simp [akeys]
      rw [hmem]
      simp only [afind, if_neg h]
      rw [ih]
      constructor
      · intro hnt hor
        rcases hor with h1 | h2
        · exact h h1.symm
        · exact hnt h2
      · intro hnt ht
        exact hnt (Or.inr ht)

theorem aupd_of_none {α : Type} (m : Dict α) (k : String) (v : α)
    (h : afind m k = none) : aupd m k v = m ++ [(k, v)] := by
  induction m with
  | nil => simp [aupd]
  | cons p t ih =>
    obtain ⟨a, b⟩ := p
    simp only [afind] at h
    by_cases h2 : a = k
    · simp [h2] at h
    · simp only [if_neg h2] at h
      simp [aupd, h2, ih h]

theorem aupdAll_append {α : Type} (m n : Dict α)
    (hn : (akeys n).Nodup) (hdisj : ∀ k ∈ akeys n, afind m k = none) :
    aupdAll m n = m ++ n := by
  induction n generalizing m with
  | nil => simp [aupdAll]
  | cons p t ih =>
    obtain ⟨a, b⟩ := p
    simp only [akeys, List.map_cons, List.nodup_cons] at hn
    have hma : afind m a = none := hdisj a (by simp [akeys])
    have step : aupdAll m ((a, b) :: t) = aupdAll (m ++ [(a, b)]) t := by
      simp [aupdAll, aupd_of_none m a b hma]
    rw [step, ih]
    · simp
    · exact hn.2
    · intro k hk
      have hka : k ≠ a := by
        intro hh
        subst hh
        exact hn.1 (by simpa [akeys] using hk)
      have hmk : afind m k = none := by
        apply hdisj k
        have : k ∈ akeys t := hk
        simp only [akeys, List.map_cons, List.mem_cons]
        exact Or.inr (by simpa [akeys] using this)
      rw [afind_eq_none_iff] at hmk
      rw [afind_eq_none_iff]
      have hkeys : akeys (m ++ [(a, b)]) = akeys m ++ [a] := by simp [akeys]
      rw [hkeys]
      intro hcon
      rcases List.mem_append.mp hcon with hm1 | hm2
      · exact hmk hm1
      · exact hka (List.mem_singleton.mp hm2)

theorem aupdAll_nil_left {α : Type} (m : Dict α) (hm : (akeys m).Nodup) :
    aupdAll [] m = m := by
  have := aupdAll_append ([] : Dict α) m hm (by intro k _; simp [afind])
  simpa using this

theorem akeys_aupdAll {α : Type} (m n : Dict α) (hn : (akeys n).Nodup) :
    akeys (aupdAll m n) = akeys m ++ (akeys n).filter (fun k => (afind m k).isNone) := by
  induction n generalizing m with
  | nil => simp [aupdAll, akeys]
  | cons p t ih =>
    obtain ⟨a, b⟩ := p
    simp only [akeys, List.map_cons, List.nodup_cons] at hn
    have step : aupdAll m ((a, b) :: t) = aupdAll (aupd m a b) t := by
      simp [aupdAll]
    rw [step, ih (aupd m a b) hn.2]
    have hfilter : (akeys t).filter (fun k => (afind (aupd m a b) k).isNone)
        = (akeys t).filter (fun k => (afind m k).isNone) := by
      apply List.filter_congr
      intro k hk
      have hka : ¬ a = k := fun hh => hn.1 (hh ▸ hk)
      simp [afind_aupd, hka]
    rw [hfilter, akeys_aupd]
    by_cases h : (afind m a).isSome
    · simp only [if_pos h, akeys, List.filter_cons]
      have : (afind m a).isNone = false := by
        cases hm : afind m a <;> simp [hm] at h ⊢
      simp [this]
    · simp only [if_neg h, akeys, List.filter_cons]
      have : (afind m a).isNone = true := by
        cases hm : afind m a <;> simp [hm] at h ⊢
      simp [this, List.append_assoc]

theorem nodup_akeys_aupd {α : Type} (m : Dict α) (k : String) (v : α)
    (hm : (akeys m).Nodup) : (akeys (aupd m k v)).Nodup := by
  rw [akeys_aupd]
  by_cases h : (afind m k).isSome
  · simpa [h] using hm
  · have hk : k ∉ akeys m := by
      rw [← afind_eq_none_iff]
      cases hm2 : afind m k <;> simp [hm2] at h ⊢
    simp only [if_neg h]
    simp [List.nodup_append, hm, hk]

theorem nodup_akeys_aupdAll {α : Type} (m n : Dict α)
    (hm : (akeys m).Nodup) : (akeys (aupdAll m n)).Nodup := by
  induction n generalizing m with
  | nil => simpa [aupdAll]
  | cons p t ih =>
    have step : aupdAll m (p :: t) = aupdAll (aupd m p.1 p.2) t := by
      simp [aupdAll]
    rw [step]
    exact ih _ (nodup_akeys_aupd m p.1 p.2 hm)

theorem afind_aupdAll_isSome {α : Type} (m n : Dict α) (k : String) :
    (afind (aupdAll m n) k).isSome = ((afind m k).isSome || (afind n k).isSome) := by
  induction n generalizing m with
  | nil => simp [aupdAll, afind]
  | cons p t ih =>
    obtain ⟨a, b⟩ := p
    have step : aupdAll m ((a, b) :: t) = aupdAll (aupd m a b) t := by
      simp [aupdAll]
    rw [step, ih]
    simp only [afind_aupd, afind]
    by_cases h : a = k
    · simp [h]
    · simp [h]

/-! ### Lemmas about the synthesizer's namespace overlay -/

theorem overlay_step (k : String) (ty : Ty) (t : Dict Ty) (nsv defaults : Dict NsVal) :
    overlayDefaults ((k, ty) :: t) nsv defaults
      = overlayDefaults t nsv
          (match afind nsv k with
           | some v => aupd defaults k v
           | none => defaults) := by
  simp [overlayDefaults]

theorem overlay_find_of_ns_none (anns : Dict Ty) (nsv defaults : Dict NsVal) (n : String)
    (h : afind nsv n = none) :
    afind (overlayDefaults anns nsv defaults) n = afind defaults n := by
  induction anns generalizing defaults with
  | nil => simp [overlayDefaults]
  | cons p t ih =>
    obtain ⟨k, ty⟩ := p
    rw [overlay_step]
    cases hk : afind nsv k with
    | none => simpa using ih defaults
    | some v =>
      have hkn : ¬ k = n := by
        intro hh
        subst hh
        rw [h] at hk
        exact Option.noConfusion hk
      simp only []
      rw [ih (aupd defaults k v), afind_aupd]
      simp [hkn]

theorem overlay_find_notmem (anns : Dict Ty) (nsv defaults : Dict NsVal) (n : String)
    (h : n ∉ akeys anns) :
    afind (overlayDefaults anns nsv defaults) n = afind defaults n := by
  induction anns generalizing defaults with
  | nil => simp [overlayDefaults]
  | cons p t ih =>
    obtain ⟨k, ty⟩ := p
    have hkn : ¬ k = n := by
      intro hh
      exact h (by simp [akeys, hh])
    have ht : n ∉ akeys t := by
      intro hh
      exact h (by simp [akeys]; right; simpa [akeys] using hh)
    rw [overlay_step]
    cases hk : afind nsv k with
    | none => simpa using ih defaults ht
    | some v =>
      simp only []
      rw [ih (aupd defaults k v) ht, afind_aupd]
      simp [hkn]

theorem overlay_find_of_ns_some (anns : Dict Ty) (nsv defaults : Dict NsVal)
    (n : String) (v : NsVal) (hv : afind nsv n = some v) :
    n ∈ akeys anns → afind (overlayDefaults anns nsv defaults) n = some v := by
  induction anns generalizing defaults with
  | nil => intro hmem; simp [akeys] at hmem
  | cons p t ih =>
    intro hmem
    obtain ⟨k, ty⟩ := p
    rw [overlay_step]
    by_cases hk : k = n
    · subst hk
      rw [hv]
      simp only []
      by_cases hmem2 : k ∈ akeys t
      · exact ih (aupd defaults k v) hmem2
      · rw [overlay_find_notmem t nsv _ k hmem2, afind_aupd]
        simp
    · have hmem' : n ∈ akeys t := by
        rcases (by simpa [akeys] using hmem : n = k ∨ n ∈ List.map Prod.fst t) with h1 | h2
        · exact absurd h1.symm hk
        · simpa [akeys] using h2
      cases hnk : afind nsv k with
      | none => simpa using ih defaults hmem'
      | some w =>
        simp only []
        exact ih (aupd defaults k w) hmem'

/-! ### Lemmas about the synthesizer's field construction -/

theorem buildFields_names (anns : Dict Ty) (defaults : Dict NsVal) (ctr : Nat) :
    (buildFields anns defaults ctr).1.map FieldInfo.pname = akeys anns := by
  induction anns generalizing ctr with
  | nil => simp [buildFields, akeys]
  | cons p t ih =>
    obtain ⟨n, ty⟩ := p
    cases hd : afind defaults n with
    | none => simp [buildFields, hd, akeys, FieldInfo.pname, ih]
    | some dv =>
      cases dv with
      | plain v => simp [buildFields, hd, akeys, FieldInfo.pname, ih]
      | fieldObj g => simp [buildFields, hd, akeys, FieldInfo.pname, ih]

theorem buildFields_mem_fieldObj (anns : Dict Ty) (defaults : Dict NsVal) (ctr : Nat)
    (n : String) (f : FieldInfo) (hd : afind defaults n = some (NsVal.fieldObj f)) :
    n ∈ akeys anns →
    ∃ g, g ∈ (buildFields anns defaults ctr).1 ∧ g.fid = f.fid ∧ g.name = some n := by
  induction anns generalizing ctr with
  | nil => intro hmem; simp [akeys] at hmem
  | cons p t ih =>
    intro hmem
    obtain ⟨k, ty⟩ := p
    by_cases hk : k = n
    · subst hk
      refine ⟨{ f with name := some k, type := some ty }, ?_, rfl, rfl⟩
      simp [buildFields, hd]
    · have hmem' : n ∈ akeys t := by
        rcases (by simpa [akeys] using hmem : n = k ∨ n ∈ List.map Prod.fst t) with h1 | h2
        · exact absurd h1.symm hk
        · simpa [akeys] using h2
      cases hdk : afind defaults k with
      | none =>
        obtain ⟨g, hg, h1, h2⟩ := ih (ctr + 1) hmem'
        exact ⟨g, by simp [buildFields, hdk]; exact Or.inr hg, h1, h2⟩
      | some dv =>
        cases dv with
        | plain v =>
          obtain ⟨g, hg, h1, h2⟩ := ih (ctr + 1) hmem'
          exact ⟨g, by simp [buildFields, hdk]; exact Or.inr hg, h1, h2⟩
        | fieldObj w =>
          obtain ⟨g, hg, h1, h2⟩ := ih ctr hmem'
          exact ⟨g, by simp [buildFields, hdk]; exact Or.inr hg, h1, h2⟩

theorem buildFields_mem_plain (anns : Dict Ty) (defaults : Dict NsVal) (ctr : Nat)
    (n : String) (v : Val) (hd : afind defaults n = some (NsVal.plain v)) :
    n ∈ akeys anns →
    ∃ g, g ∈ (buildFields anns defaults ctr).1 ∧ g.name = some n ∧
      g.default = some v ∧ g.default_factory = none := by
  induction anns generalizing ctr with
  | nil => intro hmem; simp [akeys] at hmem
  | cons p t ih =>
    intro hmem
    obtain ⟨k, ty⟩ := p
    by_cases hk : k = n
    · subst hk
      refine ⟨{ FieldInfo.make ctr (some v) none true true none none [] with
                  name := some k, type := some ty }, ?_, rfl, rfl, rfl⟩
      simp [buildFields, hd]
    · have hmem' : n ∈ akeys t := by
        rcases (by simpa [akeys] using hmem : n = k ∨ n ∈ List.map Prod.fst t) with h1 | h2
        · exact absurd h1.symm hk
        · simpa [akeys] using h2
      cases hdk : afind defaults k with
      | none =>
        obtain ⟨g, hg, h1, h2, h3⟩ := ih (ctr + 1) hmem'
        exact ⟨g, by simp [buildFields, hdk]; exact Or.inr hg, h1, h2, h3⟩
      | some dv =>
        cases dv with
        | plain w =>
          obtain ⟨g, hg, h1, h2, h3⟩ := ih (ctr + 1) hmem'
          exact ⟨g, by simp [buildFields, hdk]; exact Or.inr hg, h1, h2, h3⟩
        | fieldObj w =>
          obtain ⟨g, hg, h1, h2, h3⟩ := ih ctr hmem'
          exact ⟨g, by simp [buildFields, hdk]; exact Or.inr hg, h1, h2, h3⟩

theorem buildFields_mem_plain_fresh (anns : Dict Ty) (defaults : Dict NsVal) (ctr : Nat)
    (n : String) (v : Val) (hd : afind defaults n = some (NsVal.plain v)) :
    n ∈ akeys anns →
    ∃ g, g ∈ (buildFields anns defaults ctr).1 ∧ g.name = some n ∧
      g.default = some v ∧ g.default_factory = none ∧ ctr ≤ g.fid := by
  induction anns generalizing ctr with
  | nil => intro hmem; simp [akeys] at hmem
  | cons p t ih =>
    intro hmem
    obtain ⟨k, ty⟩ := p
    by_cases hk : k = n
    · subst hk
      refine ⟨{ FieldInfo.make ctr (some v) none true true none none [] with
                  name := some k, type := some ty }, ?_, rfl, rfl, rfl, Nat.le_refl ctr⟩
      simp [buildFields, hd]
    · have hmem' : n ∈ akeys t := by
        rcases (by simpa [akeys] using hmem : n = k ∨ n ∈ List.map Prod.fst t) with h1 | h2
        · exact absurd h1.symm hk
        · simpa [akeys] using h2
      cases hdk : afind defaults k with
      | none =>
        obtain ⟨g, hg, h1, h2, h3, h4⟩ := ih (ctr + 1) hmem'
        exact ⟨g, by simp [buildFields, hdk]; exact Or.inr hg, h1, h2, h3, by omega⟩
      | some dv =>
        cases dv with
        | plain w =>
          obtain ⟨g, hg, h1, h2, h3, h4⟩ := ih (ctr + 1) hmem'
          exact ⟨g, by simp [buildFields, hdk]; exact Or.inr hg, h1, h2, h3, by omega⟩
        | fieldObj w =>
          obtain ⟨g, hg, h1, h2, h3, h4⟩ := ih ctr hmem'
          exact ⟨g, by simp [buildFields, hdk]; exact Or.inr hg, h1, h2, h3, h4⟩

/-! ### Lemmas about instance construction -/

theorem afind_isSome_iff_mem {α : Type} (m : Dict α) (k : String) :
    (afind m k).isSome = true ↔ k ∈ akeys m := by
  cases h : afind m k with
  | none =>
    simp only [Option.isSome_none, Bool.false_eq_true, false_iff]
    exact afind_eq_none_iff m k |>.mp h
  | some v =>
    simp only [Option.isSome_some, true_iff]
    by_contra hn
    have := (afind_eq_none_iff m k).mpr hn
    rw [h] at this
    exact Option.noConfusion this

theorem resolveField_error (cn : String) (kw : Dict Val) (f : FieldInfo) (e : PyError) :
    resolveField cn kw f = Except.error e → e = PyError.missingRequired cn f.pname := by
  unfold resolveField
  cases afind kw f.pname with
  | some v => simp
  | none =>
    cases f.default_factory with
    | some fa => simp
    | none =>
      cases f.default with
      | some v => simp
      | none =>
        intro h
        simp only [Except.error.injEq] at h
        exact h.symm

theorem initFields_ok (cn : String) (kw : Dict Val) (fs : List FieldInfo) :
    ∀ d0 : Dict Val, (∀ f ∈ fs, exceptOk (resolveField cn kw f) = true) →
    ∃ d, initFields cn kw fs d0 = Except.ok d := by
  induction fs with
  | nil => exact fun d0 _ => ⟨d0, rfl⟩
  | cons f t ih =>
    intro d0 h
    have hf := h f (by simp)
    cases hr : resolveField cn kw f with
    | error e => rw [hr] at hf; simp [exceptOk] at hf
    | ok v =>
      obtain ⟨d, hd⟩ := ih (aupd d0 f.pname v) (fun g hg => h g (by simp [hg]))
      exact ⟨d, by simp [initFields, hr, hd]⟩

theorem initFields_find_isSome (cn : String) (kw : Dict Val) (fs : List FieldInfo) :
    ∀ (d0 d : Dict Val) (k : String), initFields cn kw fs d0 = Except.ok d →
    (afind d k).isSome = ((afind d0 k).isSome || fs.any (fun f => f.pname == k)) := by
  induction fs with
  | nil =>
    intro d0 d k h
    simp only [initFields] at h
    cases h
    simp
  | cons f t ih =>
    intro d0 d k h
    cases hr : resolveField cn kw f with
    | error e => simp [initFields, hr] at h
    | ok v =>
      simp only [initFields, hr] at h
      rw [ih (aupd d0 f.pname v) d k h, afind_aupd]
      by_cases hk : f.pname = k
      · simp [hk]
      · have hb : (f.pname == k) = false := by simp [hk]
        simp [hk, hb]

theorem initFields_find_notmem (cn : String) (kw : Dict Val) (fs : List FieldInfo) :
    ∀ (d0 d : Dict Val) (k : String), (∀ f ∈ fs, f.pname ≠ k) →
    initFields cn kw fs d0 = Except.ok d → afind d k = afind d0 k := by
  induction fs with
  | nil =>
    intro d0 d k _ h
    simp only [initFields] at h
    cases h
    rfl
  | cons f t ih =>
    intro d0 d k hk h
    cases hr : resolveField cn kw f with
    | error e => simp [initFields, hr] at h
    | ok v =>
      simp only [initFields, hr] at h
      rw [ih (aupd d0 f.pname v) d k (fun g hg => hk g (List.mem_cons_of_mem _ hg)) h,
        afind_aupd]
      have hne := hk f (by simp)
      simp [hne]

theorem initFields_find_mem (cn : String) (kw : Dict Val) (fs : List FieldInfo) :
    ∀ (d0 d : Dict Val) (f : FieldInfo) (v : Val),
    (fs.map FieldInfo.pname).Nodup → f ∈ fs → resolveField cn kw f = Except.ok v →
    initFields cn kw fs d0 = Except.ok d → afind d f.pname = some v := by
  induction fs with
  | nil =>
    intro d0 d f v _ hf
    simp at hf
  | cons g t ih =>
    intro d0 d f v hnd hf hres h
    cases hr : resolveField cn kw g with
    | error e => simp [initFields, hr] at h
    | ok w =>
      simp only [initFields, hr] at h
      simp only [List.map_cons, List.nodup_cons] at hnd
      rcases List.mem_cons.mp hf with h1 | h2
      · subst h1
        rw [hres] at hr
        cases hr
        have hnot : ∀ g2 ∈ t, g2.pname ≠ f.pname := by
          intro g2 hg2 hcon
          exact hnd.1 (hcon ▸ List.mem_map_of_mem FieldInfo.pname hg2)
        rw [initFields_find_notmem cn kw t _ d f.pname hnot h, afind_aupd]
        simp
      · exact ih (aupd d0 g.pname w) d f v hnd.2 h2 hres h

theorem initFields_error (cn : String) (kw : Dict Val) (fs : List FieldInfo) :
    ∀ (d0 : Dict Val) (e : PyError), initFields cn kw fs d0 = Except.error e →
    ∃ n, e = PyError.missingRequired cn n := by
  induction fs with
  | nil =>
    intro d0 e h
    simp [initFields] at h
  | cons f t ih =>
    intro d0 e h
    cases hr : resolveField cn kw f with
    | error e2 =>
      simp only [initFields, hr] at h
      cases h
      exact ⟨f.pname, resolveField_error cn kw f _ hr⟩
    | ok v =>
      simp only [initFields, hr] at h
      exact ih (aupd d0 f.pname v) e h

theorem buildPosKwargs_error (cn : String) (kw : Dict Val) (pairs : List (Val × FieldInfo)) :
    ∀ (acc : Dict Val) (e : PyError), buildPosKwargs cn kw pairs acc = Except.error e →
    ∃ n, e = PyError.posAndKwConflict n cn := by
  induction pairs with
  | nil =>
    intro acc e h
    simp [buildPosKwargs] at h
  | cons p t ih =>
    intro acc e h
    obtain ⟨a, f⟩ := p
    by_cases hc : (afind kw f.pname).isSome
    · simp only [buildPosKwargs, hc, if_pos] at h
      cases h
      exact ⟨f.pname, rfl⟩
    · simp only [buildPosKwargs, hc, if_neg, Bool.false_eq_true] at h
      exact ih (aupd acc f.pname a) e h

theorem buildPosKwargs_ok (cn : String) (kw : Dict Val) (pairs : List (Val × FieldInfo)) :
    ∀ acc : Dict Val, (∀ p ∈ pairs, afind kw p.2.pname = none) →
    buildPosKwargs cn kw pairs acc
      = Except.ok (pairs.foldl (fun a p => aupd a p.2.pname p.1) acc) := by
  induction pairs with
  | nil => intro acc _; simp [buildPosKwargs]
  | cons p t ih =>
    intro acc h
    obtain ⟨a, f⟩ := p
    have hf : afind kw f.pname = none := h (a, f) (by simp)
    simp only [buildPosKwargs, hf, Option.isSome_none, Bool.false_eq_true, if_neg,
      not_false_eq_true, List.foldl_cons]
    exact ih (aupd acc f.pname a) (fun p hp => h p (by simp [hp]))

theorem posfold_find_isSome (pairs : List (Val × FieldInfo)) :
    ∀ (acc : Dict Val) (k : String),
    (afind (pairs.foldl (fun a p => aupd a p.2.pname p.1) acc) k).isSome
      = ((afind acc k).isSome || pairs.any (fun p => p.2.pname == k)) := by
  induction pairs with
  | nil => intro acc k; simp
  | cons p t ih =>
    intro acc k
    simp only [List.foldl_cons, List.any_cons]
    rw [ih (aupd acc p.2.pname p.1) k, afind_aupd]
    by_cases hk : p.2.pname = k
    · simp [hk]
    · have hb : (p.2.pname == k) = false := by simp [hk]
      simp [hk, hb]

theorem zip_take_left {α β : Type} (xs : List α) (ys : List β) :
    xs.zip ys = (xs.take ys.length).zip ys := by
  induction xs generalizing ys with
  | nil => simp
  | cons x t ih =>
    cases ys with
    | nil => simp
    | cons y u => simp [ih u]

theorem exists_pair_zip {α β : Type} (ys : List β) :
    ∀ (xs : List α) (f : β), f ∈ ys → ys.length ≤ xs.length →
    ∃ a, (a, f) ∈ xs.zip ys := by
  induction ys with
  | nil =>
    intro xs f h
    simp at h
  | cons y u ih =>
    intro xs f hf hlen
    cases xs with
    | nil => simp at hlen
    | cons x t =>
      rcases List.mem_cons.mp hf with h1 | h2
      · exact ⟨x, by simp [h1]⟩
      · obtain ⟨a, ha⟩ := ih t f h2 (by simpa using hlen)
        exact ⟨a, by simp [ha]⟩

/-! ### C1: hashing of fields with an unset hash flag -/

theorem hash_tuple_map_congr (fs : List FieldInfo) (d : Dict Val) (h : FieldInfo → FieldInfo)
    (hflag : ∀ f, (h f).hash.getD true = f.hash.getD true)
    (hname : ∀ f, (h f).pname = f.pname) :
    ((fs.map h).filter (fun f => f.hash.getD true)).map
        (fun f => (afind d f.pname).getD Val.vnone)
      = (fs.filter (fun f => f.hash.getD true)).map
        (fun f => (afind d f.pname).getD Val.vnone) := by
  induction fs with
  | nil => simp
  | cons f t ih =>
    simp only [List.map_cons, List.filter_cons, hflag f]
    by_cases hf : f.hash.getD true = true
    · simp [hf, hname f, ih]
    · have hf2 : f.hash.getD true = false := by
        cases hh : f.hash.getD true
        · rfl
        · exact absurd hh hf
      simp [hf2, ih]

/-- C1 is FALSE on the code: in `c1cls` the field `x` has
`participates_in_hash` unset and `participates_in_compare = False`; the
field is absent from the compare tuple (it does not participate in
comparison), yet its value appears in the hash of the immutable instance.
An unset hash flag does not follow the compare flag. -/
theorem c1_counterexample :
    c1cls.frozen = true
    ∧ c1cls.fields.map FieldInfo.hash = [none]
    ∧ c1cls.fields.map FieldInfo.compare = [some false]
    ∧ as_compare_tuple c1cls [("x", Val.vint 7)] = []
    ∧ baseclass_hash c1cls [("x", Val.vint 7)] = some [Val.vint 7] :=
  ⟨rfl, rfl, rfl, rfl, rfl⟩

/-- C1 (amended): a field whose `participates_in_hash` flag is unset is
included in hashing unconditionally — unset behaves as `true`, regardless of
the compare flag: forcing every unset hash flag to an explicit `true` leaves
the hash tuple unchanged, and rewriting all compare flags arbitrarily leaves
it unchanged as well. -/
theorem c1_amended_unset_hash_behaves_as_true (cls : ClassInfo) (d : Dict Val)
    (cf : FieldInfo → Option Bool) :
    as_hash_tuple { cls with fields := cls.fields.map forceUnsetHashTrue } d
      = as_hash_tuple cls d
    ∧ as_hash_tuple { cls with fields := cls.fields.map (setCompare cf) } d
      = as_hash_tuple cls d := by
  constructor
  · exact hash_tuple_map_congr cls.fields d forceUnsetHashTrue
      (fun f => rfl) (fun f => rfl)
  · exact hash_tuple_map_congr cls.fields d (setCompare cf)
      (fun f => rfl) (fun f => rfl)

/-! ### C3: immutability resolution across multiple bases -/

theorem metafold_frozen (bases : List Base) :
    ∀ (a : Dict Ty) (m : Dict NsVal) (z : Bool),
    (bases.foldl (fun (acc : Dict Ty × Dict NsVal × Bool) b =>
        (aupdAll acc.1 b.anns, aupdAll acc.2.1 b.defaults, (b.frozenAttr).getD acc.2.2))
      (a, m, z)).2.2
      = (lastDefinedFrozen bases).getD z := by
  induction bases with
  | nil => intro a m z; simp [lastDefinedFrozen]
  | cons b t ih =>
    intro a m z
    simp only [List.foldl_cons]
    rw [ih]
    simp only [lastDefinedFrozen]
    cases h : lastDefinedFrozen t with
    | some v => simp [h]
    | none => simp [h]

/-- C3 is FALSE on the code: `c3C` is `class C(A, B)` where the FIRST base
`A` defines `__frozen__ = True` and the second base `B` defines
`__frozen__ = False`; the claim's rule (first base in declaration order that
defines it) predicts an immutable class, but the synthesized class is
mutable. -/
theorem c3_counterexample :
    (Base.synthesized c3A).frozenAttr = some true
    ∧ (Base.synthesized c3B).frozenAttr = some false
    ∧ c3C.frozen = false :=
  ⟨rfl, rfl, rfl⟩

/-- C3 (amended): with no local `frozen` keyword the resolved immutability
flag is that of the LAST base (in declaration order) that defines one —
each base in turn overwrites the running value — defaulting to mutable; a
local `frozen` keyword always wins. -/
theorem c3_amended_frozen_resolution (nm : String) (bases : List Base) (ns : Namespace)
    (kw : Option Bool) (ctr : Nat) :
    (metaclass_new nm bases ns kw ctr).1.frozen = resolvedFrozen bases kw := by
  simp only [metaclass_new, resolvedFrozen]
  rw [metafold_frozen bases [] [] false]

/-! ### C5: sharing of Field descriptor objects across classes -/

/-- C5 is FALSE on the code: `c5base` declares `x: int = Field(default=1)`
(the descriptor object with identity tag 42) and `c5child` inherits `x`
unchanged; both schemas contain the very same `Field` object — a descriptor
given as an explicit `Field` default is reused as-is across classes, not
copied. -/
theorem c5_counterexample :
    c5field.fid = 42
    ∧ c5base.fields.map FieldInfo.fid = [42]
    ∧ c5child.fields.map FieldInfo.fid = [42] :=
  ⟨rfl, rfl, rfl⟩

/-- C5 (amended): a field whose merged default is a plain value receives a
freshly created `Field` instance in each class's schema — its identity tag
is drawn at or above the class-definition counter, hence distinct from every
`Field` created before this class definition, in particular from every base
schema field — while a field whose default is an explicit `Field` object is
reused as-is: a subclass that inherits such a field carries the base's very
own descriptor object (same identity tag) in its schema. -/
theorem c5_amended_field_object_reused (nm : String) (b : ClassInfo) (ns : Namespace)
    (kw : Option Bool) (ctr : Nat) (n : String) (f : FieldInfo)
    (hbnd : (akeys b.all_defaults).Nodup)
    (hd : afind b.all_defaults n = some (NsVal.fieldObj f))
    (hns : afind ns.values n = none)
    (hann : (afind (metaclass_new nm [Base.synthesized b] ns kw ctr).1.all_annotations n).isSome
        = true) :
    (∃ g, g ∈ (metaclass_new nm [Base.synthesized b] ns kw ctr).1.fields
      ∧ g.fid = f.fid ∧ g.name = some n)
    ∧ (∀ n2 v2,
        afind (metaclass_new nm [Base.synthesized b] ns kw ctr).1.all_defaults n2
          = some (NsVal.plain v2) →
        (afind (metaclass_new nm [Base.synthesized b] ns kw ctr).1.all_annotations n2).isSome
          = true →
        ∃ g2, g2 ∈ (metaclass_new nm [Base.synthesized b] ns kw ctr).1.fields
          ∧ g2.name = some n2 ∧ g2.default = some v2 ∧ ctr ≤ g2.fid
          ∧ ∀ f2 ∈ b.fields, f2.fid < ctr → g2.fid ≠ f2.fid) := by
  have hAnnsEq : (metaclass_new nm [Base.synthesized b] ns kw ctr).1.all_annotations
      = aupdAll (aupdAll [] b.all_annotations) ns.annotations := rfl
  have hFieldsEq : (metaclass_new nm [Base.synthesized b] ns kw ctr).1.fields
      = (buildFields (aupdAll (aupdAll [] b.all_annotations) ns.annotations)
          (overlayDefaults (aupdAll (aupdAll [] b.all_annotations) ns.annotations) ns.values
            (aupdAll [] b.all_defaults)) ctr).1 := rfl
  have hDefsEq : (metaclass_new nm [Base.synthesized b] ns kw ctr).1.all_defaults
      = overlayDefaults (aupdAll (aupdAll [] b.all_annotations) ns.annotations) ns.values
          (aupdAll [] b.all_defaults) := rfl
  constructor
  · rw [hFieldsEq]
    apply buildFields_mem_fieldObj
    · rw [overlay_find_of_ns_none _ _ _ _ hns, aupdAll_nil_left _ hbnd]
      exact hd
    · rw [hAnnsEq] at hann
      exact (afind_isSome_iff_mem _ n).mp hann
  · intro n2 v2 hd2 hann2
    have hmem2 : n2 ∈ akeys (aupdAll (aupdAll [] b.all_annotations) ns.annotations) := by
      apply (afind_isSome_iff_mem _ n2).mp
      rw [← hAnnsEq]
      exact hann2
    have hd2b : afind (overlayDefaults (aupdAll (aupdAll [] b.all_annotations) ns.annotations)
        ns.values (aupdAll [] b.all_defaults)) n2 = some (NsVal.plain v2) := by
      rw [← hDefsEq]
      exact hd2
    obtain ⟨g2, hg2, h1, h2, h3, h4⟩ :=
      buildFields_mem_plain_fresh _ _ ctr n2 v2 hd2b hmem2
    rw [hFieldsEq]
    exact ⟨g2, hg2, h1, h2, h4, fun f2 _ hlt => by omega⟩

/-- Witness for the amended C5: in `c5sub` (a subclass of `c5base` adding
the plain-default field `y`), `x`'s schema entry is the base's own
descriptor object (tag 42), while `y` receives a freshly created descriptor
whose tag comes from the class-definition counter. -/
theorem c5_amended_field_object_reused_witness :
    (∃ g, g ∈ c5sub.fields ∧ g.fid = c5field.fid ∧ g.name = some "x")
    ∧ (∃ g2, g2 ∈ c5sub.fields ∧ g2.name = some "y" ∧ g2.default = some (Val.vint 7)
        ∧ 1 ≤ g2.fid ∧ ∀ f2 ∈ c5base.fields, f2.fid < 1 → g2.fid ≠ f2.fid) := by
  have h := c5_amended_field_object_reused "C5Sub" c5base c5childNs none 1 "x" c5field
      (by decide) rfl rfl rfl
  exact ⟨h.1, h.2 "y" (Val.vint 7) rfl rfl⟩

/-! ### C8: immutability enforcement and its construction bypass -/

/-- C8: after construction, assigning to an attribute raises the frozen
error exactly when the class is immutable, and mutates the attribute in
place otherwise; construction never consults the immutability flag (it
writes `self.__dict__` directly), so building an instance behaves
identically on a frozen and on a mutable variant of the same class. -/
theorem c8_immutability_enforcement (cls : ClassInfo) (d : Dict Val) (k : String) (v : Val)
    (args : List Val) (kw : Dict Val) (pre post : Dict Val → Dict Val) (b b2 : Bool) :
    (baseclass_setattr cls d k v = Except.error (PyError.frozenInstanceError k)
        ↔ cls.frozen = true)
    ∧ (cls.frozen = false → baseclass_setattr cls d k v = Except.ok (aupd d k v))
    ∧ baseclass_init { cls with frozen := b } args kw pre post
        = baseclass_init { cls with frozen := b2 } args kw pre post := by
  refine ⟨?_, ?_, rfl⟩
  · unfold baseclass_setattr
    cases h : cls.frozen
    · simp [h]
    · simp [h]
  · intro h
    simp [baseclass_setattr, h]

/-! ### C2: positional-argument construction -/

theorem initPhase_shape (cls : ClassInfo) (kw1 : Dict Val) (pre post : Dict Val → Dict Val) :
    (∃ d, initPhase cls kw1 pre post = Except.ok d)
    ∨ (∃ n, initPhase cls kw1 pre post = Except.error (PyError.missingRequired cls.name n))
    ∨ (∃ ks, initPhase cls kw1 pre post
        = Except.error (PyError.unexpectedKwargs cls.name ks)) := by
  unfold initPhase
  cases hi : initFields cls.name (pre kw1) cls.fields [] with
  | error e =>
    obtain ⟨n, he⟩ := initFields_error cls.name (pre kw1) cls.fields [] e hi
    subst he
    exact Or.inr (Or.inl ⟨n, rfl⟩)
  | ok dict =>
    by_cases hu : ((akeys (pre kw1)).filter (fun k => (afind dict k).isNone)).isEmpty = true
    · exact Or.inl ⟨post dict, by simp [hu]⟩
    · have hu2 : ((akeys (pre kw1)).filter (fun k => (afind dict k).isNone)).isEmpty = false := by
        cases h2 : ((akeys (pre kw1)).filter (fun k => (afind dict k).isNone)).isEmpty
        · rfl
        · exact absurd h2 hu
      refine Or.inr (Or.inr ⟨(akeys (pre kw1)).filter (fun k => (afind dict k).isNone), ?_⟩)
      simp [hu2]

theorem baseclass_init_cons (cls : ClassInfo) (a : Val) (t : List Val) (kw : Dict Val)
    (pre post : Dict Val → Dict Val) (hub : cls.hasUserBase = false) :
    baseclass_init cls (a :: t) kw pre post
      = match buildPosKwargs cls.name kw ((a :: t).zip cls.fields) [] with
        | Except.error e => Except.error e
        | Except.ok kfa => initPhase cls (aupdAll kfa kw) pre post := by
  cases hb : buildPosKwargs cls.name kw ((a :: t).zip cls.fields) [] with
  | error e => simp [baseclass_init, mergeArgs, hub, hb]
  | ok kfa => simp [baseclass_init, mergeArgs, hub, hb]

theorem baseclass_init_pos_error (cls : ClassInfo) (a : Val) (t : List Val) (kw : Dict Val)
    (pre post : Dict Val → Dict Val) (hub : cls.hasUserBase = true) :
    baseclass_init cls (a :: t) kw pre post
      = Except.error (PyError.posArgsWithInheritance cls.name) := by
  simp [baseclass_init, mergeArgs, hub]

/-- C2 is FALSE on the code for single-chain hierarchies: `c2middle` is
`class Middle(Parent)` — exactly one direct base, a simple single-chain
hierarchy with no multi-base inheritance — yet supplying positional
arguments is rejected with the positional-args error.  The check fires for
ANY direct base that is not a framework base class. -/
theorem c2_counterexample :
    c2middle.fields.map FieldInfo.pname = ["x", "y", "z"]
    ∧ baseclass_init c2middle [Val.vint 1, Val.vint 2] [("z", Val.vstr "baz")] id id
        = Except.error (PyError.posArgsWithInheritance "Middle") :=
  ⟨rfl, rfl⟩

/-- C2 (amended): supplying positional arguments fails with the
positional-args error exactly when some direct base of the class is not one
of the two framework base classes (even a single-chain subclass of a user
class is rejected); when every direct base is a framework class and no field
is supplied both positionally and by keyword, positional construction
equals keyword construction with the fields filled in strict schema
order. -/
theorem c2_amended_positional_args (cls : ClassInfo) (args : List Val) (kw : Dict Val)
    (pre post : Dict Val → Dict Val) (hargs : args ≠ []) :
    (baseclass_init cls args kw pre post
        = Except.error (PyError.posArgsWithInheritance cls.name) ↔ cls.hasUserBase = true)
    ∧ (cls.hasUserBase = false →
        (∀ p ∈ args.zip cls.fields, afind kw p.2.pname = none) →
        baseclass_init cls args kw pre post
          = baseclass_init cls [] (aupdAll (posKwargs cls args) kw) pre post) := by
  obtain ⟨a, t, rfl⟩ : ∃ a t, args = a :: t := by
    cases args with
    | nil => exact absurd rfl hargs
    | cons a t => exact ⟨a, t, rfl⟩
  constructor
  · constructor
    · intro h
      by_contra hub
      have hub2 : cls.hasUserBase = false := by
        cases h2 : cls.hasUserBase
        · rfl
        · exact absurd h2 hub
      rw [baseclass_init_cons cls a t kw pre post hub2] at h
      cases hb : buildPosKwargs cls.name kw ((a :: t).zip cls.fields) [] with
      | error e =>
        obtain ⟨n, hn⟩ := buildPosKwargs_error cls.name kw ((a :: t).zip cls.fields) [] e hb
        subst hn
        rw [hb] at h
        simp at h
      | ok kfa =>
        rw [hb] at h
        have h2 : initPhase cls (aupdAll kfa kw) pre post
            = Except.error (PyError.posArgsWithInheritance cls.name) := h
        rcases initPhase_shape cls (aupdAll kfa kw) pre post with ⟨d, hd⟩ | ⟨n, hn⟩ | ⟨ks, hks⟩
        · rw [hd] at h2
          simp at h2
        · rw [hn] at h2
          simp at h2
        · rw [hks] at h2
          simp at h2
    · intro hub
      exact baseclass_init_pos_error cls a t kw pre post hub
  · intro hub2 hnc
    have hb := buildPosKwargs_ok cls.name kw ((a :: t).zip cls.fields) [] hnc
    rw [baseclass_init_cons cls a t kw pre post hub2, hb]
    rfl

/-- Witness for the amended C2: constructing the framework-base class
`PosArgs` with two positional arguments and the keyword `z` succeeds,
filling `x` and `y` positionally in schema order. -/
theorem c2_amended_positional_args_witness :
    baseclass_init c2pos [Val.vint 1, Val.vint 2] [("z", Val.vint 3)] id id
      = Except.ok [("x", Val.vint 1), ("y", Val.vint 2), ("z", Val.vint 3)]
    ∧ c2pos.hasUserBase = false := by
  have h := (c2_amended_positional_args c2pos [Val.vint 1, Val.vint 2] [("z", Val.vint 3)]
      id id (by decide)).2 rfl (by decide)
  refine ⟨?_, rfl⟩
  rw [h]
  rfl

/-! ### C4: default-factory invocation -/

theorem initPhase_ok_elim (cls : ClassInfo) (kw1 : Dict Val) (pre post : Dict Val → Dict Val)
    (d : Dict Val) (h : initPhase cls kw1 pre post = Except.ok d) :
    ∃ dict, initFields cls.name (pre kw1) cls.fields [] = Except.ok dict ∧ d = post dict ∧
      ((akeys (pre kw1)).filter (fun k => (afind dict k).isNone)).isEmpty = true := by
  unfold initPhase at h
  cases hi : initFields cls.name (pre kw1) cls.fields [] with
  | error e =>
    rw [hi] at h
    exact absurd h (by simp)
  | ok dict =>
    rw [hi] at h
    by_cases hu : ((akeys (pre kw1)).filter (fun k => (afind dict k).isNone)).isEmpty = true
    · refine ⟨dict, rfl, ?_, hu⟩
      simp only [hu, if_true] at h
      have h2 : Except.ok (post dict) = (Except.ok d : Except PyError (Dict Val)) := h
      exact (Except.ok.injEq _ _ ▸ h2).symm
    · have hu2 : ((akeys (pre kw1)).filter (fun k => (afind dict k).isNone)).isEmpty = false := by
        cases h2 : ((akeys (pre kw1)).filter (fun k => (afind dict k).isNone)).isEmpty
        · rfl
        · exact absurd h2 hu
      simp [hu2] at h

/-- C4 is FALSE on the code: `c4factory` is a plain named function (not a
lambda) that DOES accept a keyword-argument catch-all, and invoking it with
the full keyword map would return the raw `base` value (5); but because the
factory is not a lambda, construction invokes it with no arguments,
producing 0 for `total`. -/
theorem c4_counterexample :
    c4factory.varkw = true
    ∧ c4factory.isFunction = true
    ∧ c4factory.isLambda = false
    ∧ c4factory.callKw [("base", Val.vint 5)] = Val.vint 5
    ∧ baseclass_init c4cls [] [("base", Val.vint 5)] id id
        = Except.ok [("base", Val.vint 5), ("total", Val.vint 0)] :=
  ⟨rfl, rfl, rfl, rfl, rfl⟩

/-- C4 (amended): during construction, a field absent from the
(pre_init-rewritten) keyword map has its default factory invoked with the
full current keyword map only when the factory is a LAMBDA function with a
keyword-argument catch-all; any other factory is invoked with no arguments.
A field supplied in the keyword map takes the supplied value and the factory
result does not enter. -/
theorem c4_amended_default_factory (cls : ClassInfo) (kw : Dict Val)
    (pre : Dict Val → Dict Val) (f : FieldInfo) (fa : Factory) (d : Dict Val)
    (hnodup : (cls.fields.map FieldInfo.pname).Nodup)
    (hf : f ∈ cls.fields)
    (hinit : baseclass_init cls [] kw pre id = Except.ok d) :
    (f.default_factory = some fa → afind (pre kw) f.pname = none →
      afind d f.pname = some (if fa.isFunction && fa.isLambda && fa.varkw
        then fa.callKw (pre kw) else fa.call0))
    ∧ (∀ v, afind (pre kw) f.pname = some v → afind d f.pname = some v) := by
  have hinit2 : initPhase cls kw pre id = Except.ok d := hinit
  obtain ⟨dict, hi, hd, _⟩ := initPhase_ok_elim cls kw pre id d hinit2
  subst hd
  constructor
  · intro hfa hnone
    have hres : resolveField cls.name (pre kw) f
        = Except.ok (if fa.isFunction && fa.isLambda && fa.varkw
            then fa.callKw (pre kw) else fa.call0) := by
      simp [resolveField, hnone, hfa]
    exact initFields_find_mem cls.name (pre kw) cls.fields [] d f _ hnodup hf hres hi
  · intro v hv
    have hres : resolveField cls.name (pre kw) f = Except.ok v := by
      simp [resolveField, hv]
    exact initFields_find_mem cls.name (pre kw) cls.fields [] d f v hnodup hf hres hi

/-- Witness for the amended C4: `BCKwargs(window=252)` computes `com` by
invoking the lambda factory with the full keyword map, yielding 252. -/
theorem c4_amended_default_factory_witness :
    afind [("window", Val.vint 252), ("com", Val.vint 252)] "com" = some (Val.vint 252)
    ∧ c4wComField.default_factory = some c4wfactory := by
  refine ⟨?_, rfl⟩
  have hmem : c4wComField ∈ c4wcls.fields := by
    rw [show c4wcls.fields = [c4wWindowField, c4wComField] from rfl]
    exact List.Mem.tail _ (List.Mem.head _)
  have h := (c4_amended_default_factory c4wcls [("window", Val.vint 252)] id c4wComField
      c4wfactory [("window", Val.vint 252), ("com", Val.vint 252)]
      (by decide) hmem rfl).1 rfl rfl
  have h2 : afind [("window", Val.vint 252), ("com", Val.vint 252)] "com"
      = some (if c4wfactory.isFunction && c4wfactory.isLambda && c4wfactory.varkw
          then c4wfactory.callKw (id [("window", Val.vint 252)]) else c4wfactory.call0) := h
  rw [h2]
  rfl

/-! ### C6: schema field order under inheritance -/

/-- C6: for a subclass of one synthesized base, schema field order is
first-declaration order down the chain: the subclass's field names are
exactly the base's field names (in the base's order) followed by the
locally new names in local declaration order — a re-declared field keeps its
original position — and a field re-declared locally with a plain default
value carries the new default in the subclass's schema. -/
theorem c6_field_order (nm : String) (b : ClassInfo) (ns : Namespace) (kw : Option Bool)
    (ctr : Nat)
    (hb : b.fields.map FieldInfo.pname = akeys b.all_annotations)
    (hbn : (akeys b.all_annotations).Nodup)
    (hnsn : (akeys ns.annotations).Nodup) :
    ((metaclass_new nm [Base.synthesized b] ns kw ctr).1.fields.map FieldInfo.pname
        = b.fields.map FieldInfo.pname
          ++ (akeys ns.annotations).filter (fun k => (afind b.all_annotations k).isNone))
    ∧ (∀ n v, afind ns.values n = some (NsVal.plain v) →
        (afind (metaclass_new nm [Base.synthesized b] ns kw ctr).1.all_annotations n).isSome
          = true →
        ∃ g, g ∈ (metaclass_new nm [Base.synthesized b] ns kw ctr).1.fields
          ∧ g.name = some n ∧ g.default = some v ∧ g.default_factory = none) := by
  have hAnnsEq : (metaclass_new nm [Base.synthesized b] ns kw ctr).1.all_annotations
      = aupdAll (aupdAll [] b.all_annotations) ns.annotations := rfl
  have hFieldsEq : (metaclass_new nm [Base.synthesized b] ns kw ctr).1.fields
      = (buildFields (aupdAll (aupdAll [] b.all_annotations) ns.annotations)
          (overlayDefaults (aupdAll (aupdAll [] b.all_annotations) ns.annotations) ns.values
            (aupdAll [] b.all_defaults)) ctr).1 := rfl
  have hnil : aupdAll ([] : Dict Ty) b.all_annotations = b.all_annotations :=
    aupdAll_nil_left _ hbn
  constructor
  · rw [hFieldsEq, buildFields_names, hnil, akeys_aupdAll _ _ hnsn, hb]
  · intro n v hv hann
    have hmem : n ∈ akeys (aupdAll (aupdAll [] b.all_annotations) ns.annotations) := by
      apply (afind_isSome_iff_mem _ n).mp
      rw [← hAnnsEq]
      exact hann
    rw [hFieldsEq]
    apply buildFields_mem_plain
    · exact overlay_find_of_ns_some _ _ _ _ _ hv hmem
    · exact hmem

/-- Witness for C6: in the three-level chain `P6` → `M6` (redeclares `y`
with default 1, adds `alpha`) the schema order is the base's `[x, y, z]`
followed by the new `alpha`, and `y`'s schema entry carries the new
default. -/
theorem c6_field_order_witness :
    c6middle.fields.map FieldInfo.pname = ["x", "y", "z", "alpha"]
    ∧ ∃ g, g ∈ c6middle.fields ∧ g.name = some "y" ∧ g.default = some (Val.vint 1)
        ∧ g.default_factory = none := by
  have h := c6_field_order "M6" c6parent c6middleNs none
      (metaclass_new "P6" [Base.baseClass] c6parentNs none 0).2 rfl (by decide) (by decide)
  constructor
  · have h2 : c6parent.fields.map FieldInfo.pname
        ++ (akeys c6middleNs.annotations).filter
            (fun k => (afind c6parent.all_annotations k).isNone)
        = ["x", "y", "z", "alpha"] := by decide
    exact h.1.trans h2
  · exact h.2 "y" (Val.vint 1) rfl rfl

/-! ### C7: unexpected-keyword reporting -/

/-- C7: when every schema field resolves, construction succeeds exactly when
every keyword entry names a schema field; otherwise it fails with the
unexpected-arguments error carrying the complete list of keywords naming no
field — all of them at once, not just the first. -/
theorem c7_unexpected_kwargs (cls : ClassInfo) (kw : Dict Val) (pre post : Dict Val → Dict Val)
    (hres : ∀ f ∈ cls.fields, exceptOk (resolveField cls.name (pre kw) f) = true) :
    (((akeys (pre kw)).filter (fun k => !(cls.fields.any (fun f => f.pname == k)))) = []
        → exceptOk (baseclass_init cls [] kw pre post) = true)
    ∧ (((akeys (pre kw)).filter (fun k => !(cls.fields.any (fun f => f.pname == k)))) ≠ []
        → baseclass_init cls [] kw pre post
          = Except.error (PyError.unexpectedKwargs cls.name
              ((akeys (pre kw)).filter
                (fun k => !(cls.fields.any (fun f => f.pname == k)))))) := by
  obtain ⟨dict, hdict⟩ := initFields_ok cls.name (pre kw) cls.fields [] hres
  have hpred : ((akeys (pre kw)).filter (fun k => (afind dict k).isNone))
      = (akeys (pre kw)).filter (fun k => !(cls.fields.any (fun f => f.pname == k))) := by
    apply List.filter_congr
    intro k _
    have h1 := initFields_find_isSome cls.name (pre kw) cls.fields [] dict k hdict
    have h2 : (afind dict k).isSome = cls.fields.any (fun f => f.pname == k) := by
      simpa [afind] using h1
    cases ho : afind dict k with
    | none =>
      rw [ho] at h2
      simp only [Option.isSome_none] at h2
      simp [← h2]
    | some v =>
      rw [ho] at h2
      simp only [Option.isSome_some] at h2
      simp [← h2]
  have hinit_eq : baseclass_init cls [] kw pre post = initPhase cls kw pre post := rfl
  constructor
  · intro hempty
    rw [hinit_eq]
    unfold initPhase
    rw [hdict]
    have hu : ((akeys (pre kw)).filter (fun k => (afind dict k).isNone)) = [] := by
      rw [hpred]
      exact hempty
    simp [hu, exceptOk]
  · intro hne
    rw [hinit_eq]
    unfold initPhase
    rw [hdict]
    have hu : ((akeys (pre kw)).filter (fun k => (afind dict k).isNone)) ≠ [] := by
      rw [hpred]
      exact hne
    have hu2 : ((akeys (pre kw)).filter (fun k => (afind dict k).isNone)).isEmpty = false := by
      cases hl : (akeys (pre kw)).filter (fun k => (afind dict k).isNone) with
      | nil => exact absurd hl hu
      | cons a l => rfl
    show (if ((akeys (pre kw)).filter (fun k => (afind dict k).isNone)).isEmpty
          then Except.ok (post dict)
          else Except.error (PyError.unexpectedKwargs cls.name
            ((akeys (pre kw)).filter (fun k => (afind dict k).isNone))))
        = Except.error (PyError.unexpectedKwargs cls.name
            ((akeys (pre kw)).filter (fun k => !(cls.fields.any (fun f => f.pname == k)))))
    rw [hu2, hpred]
    simp

/-- Witness for C7: constructing `C7Cls` with its two fields plus the two
unknown keywords `foo` and `bar` fails, and the error lists both offending
keywords. -/
theorem c7_unexpected_kwargs_witness :
    baseclass_init c7cls []
        [("x", Val.vint 1), ("y", Val.vint 2), ("foo", Val.vint 3), ("bar", Val.vint 4)] id id
      = Except.error (PyError.unexpectedKwargs "C7Cls" ["foo", "bar"]) := by
  have h := (c7_unexpected_kwargs c7cls
      [("x", Val.vint 1), ("y", Val.vint 2), ("foo", Val.vint 3), ("bar", Val.vint 4)]
      id id (by decide)).2 (by decide)
  exact h

/-! ### C9: construction round-trip through as_dict -/

theorem map_congr_mem {α β : Type} (l : List α) (f g : α → β) :
    (∀ a ∈ l, f a = g a) → l.map f = l.map g := by
  induction l with
  | nil => intro _; rfl
  | cons x t ih =>
    intro h
    simp only [List.map_cons]
    rw [h x (by simp), ih (fun a ha => h a (by simp [ha]))]

theorem afind_fields_map (fs : List FieldInfo) (g : FieldInfo → Val) :
    ∀ f ∈ fs, (fs.map FieldInfo.pname).Nodup →
    afind (fs.map (fun f2 => (f2.pname, g f2))) f.pname = some (g f) := by
  induction fs with
  | nil =>
    intro f hf
    simp at hf
  | cons h0 t ih =>
    intro f hf hnd
    simp only [List.map_cons, List.nodup_cons] at hnd
    rcases List.mem_cons.mp hf with h1 | h2
    · subst h1
      simp [afind]
    · have hne : ¬ h0.pname = f.pname := by
        intro hc
        exact hnd.1 (hc ▸ List.mem_map_of_mem FieldInfo.pname h2)
      simp only [List.map_cons, afind, hne, if_neg]
      exact ih f h2 hnd.2

/-- C9: round-trip — for any instance of an immutable class built by the
constructor with no-op hooks, feeding the instance's `as_dict` mapping back
as keyword arguments to the same class's constructor succeeds and produces
an instance equal to the original. -/
theorem c9_round_trip (cls : ClassInfo) (kw d : Dict Val)
    (hfrozen : cls.frozen = true)
    (hnodup : (cls.fields.map FieldInfo.pname).Nodup)
    (hinit : baseclass_init cls [] kw id id = Except.ok d) :
    ∃ d2, baseclass_init cls [] (as_dict cls d) id id = Except.ok d2
      ∧ instEq cls d d2 = true := by
  have hinit2 : initPhase cls kw id id = Except.ok d := hinit
  obtain ⟨dict, hi, hd, _⟩ := initPhase_ok_elim cls kw id id d hinit2
  have hi' : initFields cls.name (id kw) cls.fields [] = Except.ok d := by
    rw [hd]
    exact hi
  have hsome : ∀ f ∈ cls.fields, (afind d f.pname).isSome = true := by
    intro f hf
    rw [initFields_find_isSome cls.name (id kw) cls.fields [] d f.pname hi']
    have hany : cls.fields.any (fun g2 => g2.pname == f.pname) = true :=
      List.any_eq_true.mpr ⟨f, hf, by simp⟩
    simp [afind, hany]
  have hres2 : ∀ f ∈ cls.fields, resolveField cls.name (id (as_dict cls d)) f
      = Except.ok ((afind d f.pname).getD Val.vnone) := by
    intro f hf
    have hfind : afind (as_dict cls d) f.pname = some ((afind d f.pname).getD Val.vnone) :=
      afind_fields_map cls.fields (fun f2 => (afind d f2.pname).getD Val.vnone) f hf hnodup
    simp [resolveField, hfind]
  have hok2 : ∀ f ∈ cls.fields, exceptOk (resolveField cls.name (id (as_dict cls d)) f)
      = true := by
    intro f hf
    rw [hres2 f hf]
    rfl
  obtain ⟨d2, hd2⟩ := initFields_ok cls.name (id (as_dict cls d)) cls.fields [] hok2
  have hval : ∀ f ∈ cls.fields, afind d2 f.pname = afind d f.pname := by
    intro f hf
    have hv := initFields_find_mem cls.name (id (as_dict cls d)) cls.fields [] d2 f
        ((afind d f.pname).getD Val.vnone) hnodup hf (hres2 f hf) hd2
    rw [hv]
    have hs := hsome f hf
    cases ho : afind d f.pname with
    | none =>
      rw [ho] at hs
      simp at hs
    | some v => simp
  have hempty : ((akeys (id (as_dict cls d))).filter (fun k => (afind d2 k).isNone)) = [] := by
    have hkeys : akeys (id (as_dict cls d)) = cls.fields.map FieldInfo.pname := by
      simp [as_dict, akeys, List.map_map, Function.comp]
    rw [hkeys]
    apply List.filter_eq_nil_iff.mpr
    intro k hk
    obtain ⟨f, hf, hpk⟩ := List.mem_map.mp hk
    subst hpk
    rw [hval f hf]
    have hs := hsome f hf
    cases ho : afind d f.pname with
    | none =>
      rw [ho] at hs
      simp at hs
    | some v => simp
  refine ⟨d2, ?_, ?_⟩
  · show initPhase cls (as_dict cls d) id id = Except.ok d2
    unfold initPhase
    rw [hd2]
    show (if ((akeys (id (as_dict cls d))).filter (fun k => (afind d2 k).isNone)).isEmpty
          then Except.ok (id d2)
          else Except.error (PyError.unexpectedKwargs cls.name
            ((akeys (id (as_dict cls d))).filter (fun k => (afind d2 k).isNone))))
        = Except.ok d2
    rw [hempty]
    rfl
  · unfold instEq
    have htup : as_compare_tuple cls d = as_compare_tuple cls d2 := by
      unfold as_compare_tuple
      apply map_congr_mem
      intro f hf
      have hf2 : f ∈ cls.fields := (List.mem_filter.mp hf).1
      rw [hval f hf2]
    rw [htup]
    simp

/-- Witness for C9: the frozen class `C9Cls` built with `x=5` round-trips
through `as_dict` to an equal instance. -/
theorem c9_round_trip_witness :
    ∃ d2, baseclass_init c9cls [] (as_dict c9cls [("x", Val.vint 5), ("y", Val.vint 2)]) id id
        = Except.ok d2
      ∧ instEq c9cls [("x", Val.vint 5), ("y", Val.vint 2)] d2 = true :=
  c9_round_trip c9cls [("x", Val.vint 5)] [("x", Val.vint 5), ("y", Val.vint 2)] rfl
    (by decide) rfl

/-! ### C10: surplus positional arguments -/

theorem mergeArgs_take (cls : ClassInfo) (args : List Val) (kw : Dict Val)
    (hub : cls.hasUserBase = false) (hkw : (akeys kw).Nodup)
    (hlen : cls.fields.length < args.length) :
    mergeArgs cls args kw = mergeArgs cls (args.take cls.fields.length) kw := by
  cases args with
  | nil => simp at hlen
  | cons a t =>
    by_cases hfe : cls.fields = []
    · simp [mergeArgs, hub, hfe, buildPosKwargs, aupdAll_nil_left kw hkw]
    · obtain ⟨m, hm⟩ : ∃ m, cls.fields.length = m + 1 := by
        cases hc : cls.fields with
        | nil => exact absurd hc hfe
        | cons x l => exact ⟨l.length, by simp [hc]⟩
      have htake : (a :: t).take cls.fields.length = a :: t.take m := by
        rw [hm]
        rfl
      have hz : (a :: t).zip cls.fields = (a :: t.take m).zip cls.fields := by
        rw [zip_take_left (a :: t) cls.fields, zip_take_left (a :: t.take m) cls.fields]
        rw [hm]
        simp [List.take_take]
      rw [htake]
      unfold mergeArgs
      rw [hz]
      simp only [List.isEmpty_cons]

theorem posKwargs_covers (cls : ClassInfo) (args : List Val)
    (hlen : cls.fields.length ≤ args.length) :
    ∀ f ∈ cls.fields, (afind (posKwargs cls args) f.pname).isSome = true := by
  intro f hf
  unfold posKwargs
  rw [posfold_find_isSome]
  obtain ⟨a, ha⟩ := exists_pair_zip cls.fields args f hf hlen
  have hany : (args.zip cls.fields).any (fun p => p.2.pname == f.pname) = true :=
    List.any_eq_true.mpr ⟨(a, f), ha, by simp⟩
  simp [afind, hany]

/-- C10: surplus positional arguments are silently discarded — construction
with more positional arguments than schema fields behaves exactly as if the
surplus were removed, and with no keyword arguments such a call succeeds,
building the instance from the first arguments in schema order. -/
theorem c10_surplus_positional (cls : ClassInfo) (args : List Val) (kw : Dict Val)
    (pre post : Dict Val → Dict Val)
    (hub : cls.hasUserBase = false)
    (hkw : (akeys kw).Nodup)
    (hlen : cls.fields.length < args.length) :
    baseclass_init cls args kw pre post
      = baseclass_init cls (args.take cls.fields.length) kw pre post
    ∧ exceptOk (baseclass_init cls args [] id post) = true := by
  constructor
  · unfold baseclass_init
    rw [mergeArgs_take cls args kw hub hkw hlen]
  · obtain ⟨a, t, rfl⟩ : ∃ a t, args = a :: t := by
      cases args with
      | nil => simp at hlen
      | cons a t => exact ⟨a, t, rfl⟩
    have hnc : ∀ p ∈ (a :: t).zip cls.fields, afind ([] : Dict Val) p.2.pname = none := by
      intro p _
      rfl
    have hb := buildPosKwargs_ok cls.name [] ((a :: t).zip cls.fields) [] hnc
    rw [baseclass_init_cons cls a t [] id post hub, hb]
    have hcov := posKwargs_covers cls (a :: t) (le_of_lt hlen)
    have hok : ∀ f ∈ cls.fields,
        exceptOk (resolveField cls.name (id (posKwargs cls (a :: t))) f) = true := by
      intro f hf
      have hcovf : (afind (posKwargs cls (a :: t)) f.pname).isSome = true := hcov f hf
      cases ho : afind (posKwargs cls (a :: t)) f.pname with
      | none =>
        rw [ho] at hcovf
        simp at hcovf
      | some v =>
        simp [resolveField, ho, exceptOk]
    obtain ⟨dict2, hdict2⟩ :=
      initFields_ok cls.name (id (posKwargs cls (a :: t))) cls.fields [] hok
    have hempty : ((akeys (id (posKwargs cls (a :: t)))).filter
        (fun k => (afind dict2 k).isNone)) = [] := by
      apply List.filter_eq_nil_iff.mpr
      intro k hk
      have hks : (afind (posKwargs cls (a :: t)) k).isSome = true := by
        apply (afind_isSome_iff_mem _ k).mpr
        exact hk
      have hany : (((a :: t).zip cls.fields).any (fun p => p.2.pname == k)) = true := by
        have hpf := posfold_find_isSome ((a :: t).zip cls.fields) [] k
        rw [show posKwargs cls (a :: t)
            = ((a :: t).zip cls.fields).foldl (fun a2 p => aupd a2 p.2.pname p.1) []
          from rfl] at hks
        rw [hpf] at hks
        simpa [afind] using hks
      obtain ⟨⟨pa, pf⟩, hp, hpk⟩ := List.any_eq_true.mp hany
      have hpfmem : pf ∈ cls.fields := (List.of_mem_zip hp).2
      have hpk2 : pf.pname = k := by simpa using hpk
      have hd2s : (afind dict2 k).isSome = true := by
        rw [initFields_find_isSome cls.name (id (posKwargs cls (a :: t))) cls.fields []
          dict2 k hdict2]
        have hany2 : cls.fields.any (fun f => f.pname == k) = true :=
          List.any_eq_true.mpr ⟨pf, hpfmem, by simp [hpk2]⟩
        simp [afind, hany2]
      cases hdo : afind dict2 k with
      | none =>
        rw [hdo] at hd2s
        simp at hd2s
      | some v => simp
    show exceptOk (initPhase cls (posKwargs cls (a :: t)) id post) = true
    unfold initPhase
    rw [hdict2]
    show exceptOk (if ((akeys (id (posKwargs cls (a :: t)))).filter
            (fun k => (afind dict2 k).isNone)).isEmpty
        then Except.ok (post dict2)
        else Except.error (PyError.unexpectedKwargs cls.name
          ((akeys (id (posKwargs cls (a :: t)))).filter
            (fun k => (afind dict2 k).isNone)))) = true
    rw [hempty]
    rfl

/-- Witness for C10: `C10Cls(1, 2, 3)` on the two-field class behaves like
`C10Cls(1, 2)` and succeeds, binding `x=1`, `y=2` and dropping `3`. -/
theorem c10_surplus_positional_witness :
    baseclass_init c10cls [Val.vint 1, Val.vint 2, Val.vint 3] [] id id
      = baseclass_init c10cls [Val.vint 1, Val.vint 2] [] id id
    ∧ baseclass_init c10cls [Val.vint 1, Val.vint 2, Val.vint 3] [] id id
      = Except.ok [("x", Val.vint 1), ("y", Val.vint 2)] := by
  have h := c10_surplus_positional c10cls [Val.vint 1, Val.vint 2, Val.vint 3] [] id id rfl
      (by decide) (by decide)
  exact ⟨h.1, rfl⟩

/-- Witness for C8: on a concrete mutable class, field assignment after
construction succeeds and mutates in place. -/
theorem c8_immutability_enforcement_witness :
    baseclass_setattr
        { name := "W8", hasUserBase := false, all_annotations := [("x", "int")],
          all_defaults := [], frozen := false, fields := [] }
        [("x", Val.vint 1)] "x" (Val.vint 2)
      = Except.ok [("x", Val.vint 2)] := by
  have h := (c8_immutability_enforcement
      { name := "W8", hasUserBase := false, all_annotations := [("x", "int")],
        all_defaults := [], frozen := false, fields := [] }
      [("x", Val.vint 1)] "x" (Val.vint 2) [] [] id id true false).2.1 rfl
  exact h
